import Mathlib

/-!
Verification development for the `@beekeeperstudio/vite-plugin` dev plugin
(`src/index.ts`).  The plugin's pure computations (HTML rewriting, manifest
resolution, middleware decisions, provisioning and watcher bookkeeping) are
shallowly embedded as executable Lean functions; filesystem and server
interactions are modelled by explicit state passing.  JavaScript strings are
modelled as `List Char`/`String`, JavaScript exceptions as `Except JsError`.
-/

set_option maxRecDepth 16384

namespace Bks

/-! ## Small JavaScript helpers -/

/-- The double-quote character `"` (code 34). -/
def dq : Char := Char.ofNat 34

/-- The single-quote character (code 39). -/
def sq : Char := Char.ofNat 39

/-- Whether a character is one of the two quote characters of the character
class `["']` in the rewrite regex. -/
def isQuote (c : Char) : Bool := c == dq || c == sq

/-- Number of quote characters in a string. -/
def countQuotes (s : List Char) : Nat := s.countP (fun c => isQuote c)

/-- Model of JavaScript `String.prototype.startsWith`. -/
def jsStartsWith (p s : String) : Bool := p.data.isPrefixOf s.data

/-- Model of `||` on an optional number with the JavaScript falsiness of `0`
and `undefined`: `portFromServer || fallback`. -/
def jsOrN : Option Nat → Nat → Nat
  | some n, d => if n = 0 then d else n
  | none, d => d

/-- Model of `path.resolve(base, p)` for already-normalised paths: an
absolute `p` wins, otherwise it is joined below `base`. -/
def resolveFrom (base p : String) : String :=
  if jsStartsWith "/" p then p else base ++ "/" ++ p

/-- Model of `path.dirname` for normalised paths: everything before the last
slash, `"."` when there is no slash, `"/"` for a root entry. -/
def jsDirname (p : String) : String :=
  match (p.data.reverse).dropWhile (fun c => c ≠ '/') with
  | [] => "."
  | _ :: tl => match tl with
    | [] => "/"
    | _ :: _ => String.mk tl.reverse

/-- JavaScript runtime errors that the modelled code can raise. -/
inductive JsError where
  | referenceError (name : String)
  | typeError (msg : String)
  | fsError (path : String)
deriving DecidableEq, Repr

/-- Console output produced by the plugin, kept structured so that theorems
can speak about which log line names which path. -/
inductive Log where
  | warnMissingSource (absPath : String)
  | transformedEntrypoint (input output : String)
  | copiedDevFiles
  | warnCopyDevFiles
  | warnManifest
deriving DecidableEq, Repr

/-- An input/output pair, both paths relative to the project root
(`type Entrypoint` in the source). -/
structure Entrypoint where
  input : String
  output : String
deriving DecidableEq, Repr

/-- Explicit filesystem state: file contents, existing directories, and the
set of destination paths at which `fs.copyFileSync` fails (modelling
permission errors).  `files` is a latest-first association list. -/
structure FileSys where
  files : List (String × List Char)
  dirs : List String
  failCopyTo : List String
deriving DecidableEq, Repr

/-- Model of `fs.existsSync` on a file path. -/
def FileSys.hasFile (fs : FileSys) (p : String) : Bool :=
  fs.files.any (fun kv => kv.1 == p)

/-- Model of `fs.readFileSync` (callers only use it after `existsSync`). -/
def FileSys.read (fs : FileSys) (p : String) : List Char :=
  match fs.files.find? (fun kv => kv.1 == p) with
  | some kv => kv.2
  | none => []

/-- Model of `fs.writeFileSync`. -/
def FileSys.write (fs : FileSys) (p : String) (c : List Char) : FileSys :=
  { fs with files := (p, c) :: fs.files }

/-- Model of `fs.mkdirSync(dir, { recursive: true })`. -/
def FileSys.mkdirRec (fs : FileSys) (d : String) : FileSys :=
  { fs with dirs := d :: fs.dirs }

/-- Model of `fs.copyFileSync src dst`: raises on the injected failure set,
otherwise duplicates the source contents at the destination. -/
def FileSys.copyFile (fs : FileSys) (src dst : String) : Except JsError FileSys :=
  if dst ∈ fs.failCopyTo then .error (.fsError dst)
  else .ok (fs.write dst (fs.read src))

/-! ## The URL rewrite

`injectDevClient` ends with

```
withClient.replace(/(src|href)=["']\/([^"']+)["']/g,
  (_, attr, urlPath) => `${attr}="http://localhost:${port}/${urlPath}"`)
```

A global regex replace scans left to right; at each position the regex
matches iff the text starts with `src=` or `href=`, then a quote, then `/`,
then a non-empty maximal run of non-quote characters, then a quote.  On a
match the scan resumes after the matched text. -/

/-- Splits off the maximal prefix of non-quote characters (the greedy
`[^"']+`, minus the non-emptiness check done by the caller). -/
def splitRun : List Char → List Char × List Char
  | [] => ([], [])
  | c :: cs =>
    if isQuote c then ([], c :: cs)
    else ((c :: (splitRun cs).1), (splitRun cs).2)

/-- Matches `["']\/([^"']+)["']` directly after the `attr=` prefix; returns
the attribute name, the captured path and the text after the match. -/
def matchAfterEq (attr rest : List Char) :
    Option (List Char × List Char × List Char) :=
  match rest with
  | q :: '/' :: rest2 =>
    if isQuote q then
      match splitRun rest2 with
      | (p1 :: pr, q2 :: rest3) =>
        if isQuote q2 then some (attr, p1 :: pr, rest3) else none
      | _ => none
    else none
  | _ => none

/-- Whether the rewrite regex matches at the head of `s`. -/
def matchUrlAt (s : List Char) : Option (List Char × List Char × List Char) :=
  if s.take 4 = "src=".data then matchAfterEq ("src".data) (s.drop 4)
  else if s.take 5 = "href=".data then matchAfterEq ("href".data) (s.drop 5)
  else none

/-- Replacement text `` `${attr}="http://localhost:${port}/${urlPath}"` `` —
note the hard-coded double quotes. -/
def replacementFor (port : Nat) (attr p : List Char) : List Char :=
  attr ++ '=' :: dq :: ("http://localhost:".data ++ (Nat.repr port).data ++ '/' :: p) ++ [dq]

/-- One fuel-indexed step of the global replace scan. -/
def rewriteAux (port : Nat) : Nat → List Char → List Char
  | 0, s => s
  | _ + 1, [] => []
  | fuel + 1, c :: cs =>
    match matchUrlAt (c :: cs) with
    | some (attr, p, rest) => replacementFor port attr p ++ rewriteAux port fuel rest
    | none => c :: rewriteAux port fuel cs

/-- The second `replace` of `injectDevClient`: rewrite every root-relative
`src`/`href` attribute value to an absolute dev-server URL. -/
def rewriteUrls (port : Nat) (s : List Char) : List Char :=
  rewriteAux port s.length s

/-- Whether the rewrite regex matches anywhere in `s`. -/
def hasMatch : List Char → Bool
  | [] => false
  | c :: cs => (matchUrlAt (c :: cs)).isSome || hasMatch cs

/-! ## Head injection

The first `replace` of `injectDevClient` is non-global and
case-insensitive:

```
html.replace(/(<head[^>]*>)/i, `$1\n    ${clientScript}`)
```

At a given position the pattern matches iff the text starts with `<head`
(case-insensitively) and a `>` occurs later; the greedy `[^>]*` then runs to
the first such `>`.  The leftmost match wins and the replacement inserts the
script text directly after the matched tag. -/

/-- Case-insensitive test for the literal `<head` at the head of `s`. -/
def startsWithHeadCI (s : List Char) : Bool :=
  (s.take 5).map Char.toLower = "<head".data

/-- Splits at the first `>`: `findGt s = some (a, b)` iff `s = a ++ '>' :: b`
with `a` free of `>`. -/
def findGt : List Char → Option (List Char × List Char)
  | [] => none
  | c :: cs =>
    if c = '>' then some ([], cs)
    else
      match findGt cs with
      | some pr => some (c :: pr.1, pr.2)
      | none => none

/-- The scan of the non-global case-insensitive replace: insert `ins` right
after the first `<head[^>]*>` match, if any. -/
def injectHeadAux (ins : List Char) : List Char → List Char
  | [] => []
  | c :: cs =>
    if startsWithHeadCI (c :: cs) then
      match findGt ((c :: cs).drop 5) with
      | some pr => (c :: cs).take 5 ++ pr.1 ++ '>' :: (ins ++ pr.2)
      | none => c :: injectHeadAux ins cs
    else c :: injectHeadAux ins cs

/-- Decomposition of the input around the first `<head[^>]*>` match:
`firstHeadSplit s = some (pre, tag, after)` means the leftmost match is
`tag` and `s = pre ++ tag ++ after`. -/
def firstHeadSplit : List Char → Option (List Char × List Char × List Char)
  | [] => none
  | c :: cs =>
    if startsWithHeadCI (c :: cs) then
      match findGt ((c :: cs).drop 5) with
      | some pr => some ([], ((c :: cs).take 5 ++ pr.1 ++ ['>'], pr.2))
      | none =>
        match firstHeadSplit cs with
        | some x => some (c :: x.1, x.2)
        | none => none
    else
      match firstHeadSplit cs with
      | some x => some (c :: x.1, x.2)
      | none => none

/-! ## The injected client script and the whole transform

Lines 59–82 of the source.  The function also evaluates
`window?.location?.href` (line 61) before building the script; that
evaluation is part of `injectDevClientRun` below, while `injectDevClient`
here is the pure string rewriting of lines 62–81 given the already resolved
manifest identity string. -/

/-- The interpolated `clientScript` template literal: the inline
`showViteError` handler plus the module script that loads
`http://localhost:<port>/@vite/client`. -/
def clientScript (mid : List Char) (port : Nat) : List Char :=
  ("<script>\n      window.showViteError = function(e) \x7b\n        const currentUrl = encodeURIComponent(window.location.href);\n        window.location.href = \x27./error.html?port=").data
  ++ (Nat.repr port).data
  ++ (if mid = [] then [] else ("&manifestId=").data ++ mid)
  ++ ("&target=\x27 + currentUrl;\n      \x7d;\n    </script>\n    <script type=\x22module\x22 src=\x22http://localhost:").data
  ++ (Nat.repr port).data
  ++ ("/@vite/client\x22 onerror=\x22showViteError()\x22></script>").data

/-- The full text the head replacement inserts after the matched tag:
`\n    ` followed by `clientScript` (from the template `` `$1\n    ${clientScript}` ``). -/
def insertedText (mid : List Char) (port : Nat) : List Char :=
  '\n' :: ("    ").data ++ clientScript mid port

/-- The pure HTML transform of `injectDevClient` (lines 62–81): head
injection followed by the global URL rewrite.  `mid` is the resolved
manifest identity string. -/
def injectDevClient (mid : List Char) (port : Nat) (html : List Char) : List Char :=
  rewriteUrls port (injectHeadAux (insertedText mid port) html)

/-- Node.js declares no global binding named `window`.  Line 61 evaluates
`window?.location?.href`; optional chaining does not guard the resolution of
the base identifier itself, so the access throws
`ReferenceError: window is not defined` when run under Node. -/
def nodeWindowDeclared : Bool := false

/-- The evaluation of `window?.location?.href || ''` on line 61. -/
def readWindowHref : Except JsError (List Char) :=
  if nodeWindowDeclared then .ok [] else .error (.referenceError "window")

/-- The runtime behaviour of `injectDevClient` including line 61: the dead
`currentUrl`/`errorUrl` computation runs (and in Node throws) before the
string rewriting. -/
def injectDevClientRun (mid : List Char) (port : Nat) (html : List Char) :
    Except JsError (List Char) :=
  match readWindowHref with
  | .error e => .error e
  | .ok _ => .ok (injectDevClient mid port html)

/-! ## `writeEntrypoint` (lines 84–103) -/

/-- `writeEntrypoint(entry, port)`: check the source file, transform, create
the output directory, write, log.  Filesystem effects and logs are explicit;
a thrown JavaScript error propagates to the caller as `.error`. -/
def writeEntrypoint (root : String) (mid : List Char) (fs : FileSys)
    (e : Entrypoint) (port : Nat) : Except JsError (FileSys × List Log) :=
  let srcHtmlPath := resolveFrom root e.input
  let outHtmlPath := resolveFrom root e.output
  if fs.hasFile srcHtmlPath = false then
    .ok (fs, [.warnMissingSource srcHtmlPath])
  else
    match injectDevClientRun mid port (fs.read srcHtmlPath) with
    | .error err => .error err
    | .ok html2 =>
      .ok ((fs.mkdirRec (jsDirname outHtmlPath)).write outHtmlPath html2,
        [.transformedEntrypoint e.input e.output])

/-! ## `getManifestId` (lines 15–27)

```
const manifest = JSON.parse(fs.readFileSync(manifestPath, "utf8"));
return manifest.id || "";
```

`JSON.parse` is a platform primitive; it is modelled by an executable
recursive-descent parser over the JSON fragment used by plugin manifests:
`null`, booleans, integer numerals, strings with the single-character
escapes, arrays and objects (duplicate keys keep the last binding, as in
`JSON.parse`).  Floating-point numerals and `\u` escapes are outside the
model. -/

/-- JavaScript values a parsed manifest (or a property access on it) can
produce. -/
inductive Jv where
  | undefined
  | null
  | bool (b : Bool)
  | num (n : Int)
  | str (s : List Char)
  | arr (xs : List Jv)
  | obj (kvs : List (List Char × Jv))
deriving Repr

/-- JavaScript truthiness on the modelled values. -/
def jsTruthy : Jv → Bool
  | .undefined => false
  | .null => false
  | .bool b => b
  | .num n => n != 0
  | .str s => s != []
  | .arr _ => true
  | .obj _ => true

/-- JSON whitespace. -/
def skipWs : List Char → List Char
  | [] => []
  | c :: cs =>
    if c = ' ' || c = '\n' || c = '\t' || c = '\r' then skipWs cs else c :: cs

/-- Single-character JSON string escapes. -/
def unescape (c : Char) : Option Char :=
  if c = dq then some dq
  else if c = '\\' then some '\\'
  else if c = '/' then some '/'
  else if c = 'n' then some '\n'
  else if c = 't' then some '\t'
  else if c = 'r' then some '\r'
  else if c = 'b' then some (Char.ofNat 8)
  else if c = 'f' then some (Char.ofNat 12)
  else none

/-- Parses the body of a JSON string after its opening quote. -/
def parseJStr : Nat → List Char → Option (List Char × List Char)
  | 0, _ => none
  | _ + 1, [] => none
  | fuel + 1, c :: cs =>
    if c = dq then some ([], cs)
    else if c = '\\' then
      match cs with
      | [] => none
      | e :: cs2 =>
        match unescape e with
        | some ch => (parseJStr fuel cs2).map (fun pr => (ch :: pr.1, pr.2))
        | none => none
    else (parseJStr fuel cs).map (fun pr => (c :: pr.1, pr.2))

/-- Parses a run of decimal digits. -/
def parseDigits : List Char → Option (Nat × List Char)
  | s =>
    match s.span (fun c => c.isDigit) with
    | ([], _) => none
    | (ds, rest) => some (ds.foldl (fun acc c => 10 * acc + (c.toNat - 48)) 0, rest)

mutual

/-- Parses one JSON value (after leading whitespace is skipped by the
caller). -/
def parseVal : Nat → List Char → Option (Jv × List Char)
  | 0, _ => none
  | fuel + 1, s =>
    match s with
    | [] => none
    | c :: cs =>
      if c = dq then (parseJStr (fuel + 1) cs).map (fun pr => (.str pr.1, pr.2))
      else if c = Char.ofNat 123 then parseMembers fuel (skipWs cs) []
      else if c = '[' then parseItems fuel (skipWs cs) []
      else if c = '-' then
        match parseDigits cs with
        | some (n, rest) => some (.num (-(n : Int)), rest)
        | none => none
      else if c.isDigit then
        match parseDigits (c :: cs) with
        | some (n, rest) => some (.num (n : Int), rest)
        | none => none
      else if (c :: cs).take 4 = "true".data then some (.bool true, (c :: cs).drop 4)
      else if (c :: cs).take 5 = "false".data then some (.bool false, (c :: cs).drop 5)
      else if (c :: cs).take 4 = "null".data then some (.null, (c :: cs).drop 4)
      else none

/-- Parses the members of an object after `{` (and after any first-member
whitespace); `acc` holds the members parsed so far, in order. -/
def parseMembers (fuel : Nat) (s : List Char) (acc : List (List Char × Jv)) :
    Option (Jv × List Char) :=
  match fuel with
  | 0 => none
  | fuel + 1 =>
    match s with
    | [] => none
    | c :: cs =>
      if c == Char.ofNat 125 && acc.isEmpty then some (.obj [], cs)
      else if c = dq then
        match parseJStr (fuel + 1) cs with
        | none => none
        | some (key, rest1) =>
          match skipWs rest1 with
          | ':' :: rest2 =>
            match parseVal fuel (skipWs rest2) with
            | none => none
            | some (v, rest3) =>
              match skipWs rest3 with
              | ',' :: rest4 => parseMembers fuel (skipWs rest4) (acc ++ [(key, v)])
              | c2 :: rest4 =>
                if c2 = Char.ofNat 125 then some (.obj (acc ++ [(key, v)]), rest4) else none
              | [] => none
          | _ => none
      else none

/-- Parses the items of an array after `[` (and whitespace). -/
def parseItems (fuel : Nat) (s : List Char) (acc : List Jv) :
    Option (Jv × List Char) :=
  match fuel with
  | 0 => none
  | fuel + 1 =>
    match s with
    | [] => none
    | c :: cs =>
      if c == ']' && acc.isEmpty then some (.arr [], cs)
      else
        match parseVal fuel (c :: cs) with
        | none => none
        | some (v, rest1) =>
          match skipWs rest1 with
          | ',' :: rest2 => parseItems fuel (skipWs rest2) (acc ++ [v])
          | ']' :: rest2 => some (.arr (acc ++ [v]), rest2)
          | _ => none

end

/-- Model of `JSON.parse`: parse one value, requiring only trailing
whitespace after it; failure models the thrown `SyntaxError`. -/
def jparse (s : List Char) : Except JsError Jv :=
  match parseVal (2 * s.length + 2) (skipWs s) with
  | some (v, rest) =>
    if skipWs rest = [] then .ok v else .error (.typeError "Unexpected token")
  | none => .error (.typeError "Unexpected token")

/-- JavaScript property access `v.id`: objects yield the last binding (as
`JSON.parse` keeps the last duplicate key) or `undefined`; `null` and
`undefined` throw a `TypeError`; other primitives yield `undefined`. -/
def propAccess (v : Jv) (key : List Char) : Except JsError Jv :=
  match v with
  | .null => .error (.typeError "Cannot read properties of null")
  | .undefined => .error (.typeError "Cannot read properties of undefined")
  | .obj kvs =>
    match kvs.reverse.find? (fun kv => kv.1 == key) with
    | some kv => .ok kv.2
    | none => .ok .undefined
  | _ => .ok .undefined

/-- `getManifestId(config)` (lines 15–27): read `root/manifest.json` if it
exists, parse it, and return `manifest.id || ""`; every thrown error is
caught, logged as a warning, and turned into `""`. -/
def getManifestId (root : String) (fs : FileSys) : Jv × List Log :=
  let manifestPath := resolveFrom root "manifest.json"
  if fs.hasFile manifestPath then
    match jparse (fs.read manifestPath) with
    | .error _ => (.str [], [.warnManifest])
    | .ok v =>
      match propAccess v ("id".data) with
      | .error _ => (.str [], [.warnManifest])
      | .ok idv => (if jsTruthy idv then idv else .str [], [])
  else (.str [], [])

/-! ## Dev-server middleware (lines 176–201)

Two Connect-style middlewares registered in `configureServer`, in this
order: the manifest-id info endpoint, then the origin guard.  A middleware
either terminates the response (`writeHead`/`end`) or calls `next()`.  Both
call `getManifestId(config)` per request; the middlewares below take the
resulting identity string as a parameter. -/

/-- An incoming request as the middlewares see it: `req.url` (the full
request target, path plus any query string) and the `Origin` header. -/
structure Request where
  url : String
  origin : Option String
deriving DecidableEq, Repr

/-- Outcome of one middleware on a request: terminate with a status,
headers and body, or pass to the next interceptor. -/
inductive MwOut where
  | done (status : Nat) (headers : List (String × String)) (body : String)
  | next
deriving DecidableEq, Repr

/-- The portion of a request target before the query string — the HTTP path
of `req.url`. -/
def pathOf (u : String) : String :=
  String.mk (u.data.takeWhile (fun c => c ≠ '?'))

/-- `JSON.stringify` escaping of one character inside a string literal. -/
def jsonEscapeChar (c : Char) : List Char :=
  if c = dq then ['\\', dq]
  else if c = '\\' then ['\\', '\\']
  else if c = '\n' then ['\\', 'n']
  else if c = '\r' then ['\\', 'r']
  else if c = '\t' then ['\\', 't']
  else if c.toNat < 32 then
    '\\' :: 'u' :: '0' :: '0' :: (Nat.toDigits 16 c.toNat)
  else [c]

/-- `JSON.stringify` of a JavaScript string. -/
def jsonQuote (s : String) : String :=
  String.mk (dq :: (s.data.foldr (fun c acc => jsonEscapeChar c ++ acc) [dq]))

/-- The body `JSON.stringify({ manifestId: getManifestId(config) })` for a
string identity. -/
def infoBody (manifestId : String) : String :=
  "\x7b\x22manifestId\x22:" ++ jsonQuote manifestId ++ "\x7d"

/-- The headers of the info endpoint's `writeHead(200, {...})`. -/
def infoHeaders : List (String × String) :=
  [("Content-Type", "application/json"), ("Access-Control-Allow-Origin", "*")]

/-- First middleware (lines 176–186): answer
`req.url === "/__bks_vite_plugin__info"` with the manifest id, else
`next()`. -/
def infoMw (manifestId : String) (req : Request) : MwOut :=
  if req.url == "/__bks_vite_plugin__info" then
    .done 200 infoHeaders (infoBody manifestId)
  else .next

/-- Second middleware (lines 189–201): reject a `plugin://` origin that does
not match the known manifest identity with an empty 403, else `next()`. -/
def originGuard (manifestId : String) (req : Request) : MwOut :=
  match req.origin with
  | none => .next
  | some origin =>
    if (origin != "") && jsStartsWith "plugin://" origin then
      if (manifestId != "") && (origin != "plugin://" ++ manifestId) then
        .done 403 [] ""
      else .next
    else .next

/-- Runs a middleware chain in registration order. -/
def runChain (mws : List (Request → MwOut)) (req : Request) : MwOut :=
  match mws with
  | [] => .next
  | m :: ms =>
    match m req with
    | .next => runChain ms req
    | out => out

/-- The plugin's middleware stack in its registration order: the info
endpoint first, the origin guard second. -/
def bksMiddlewares (manifestId : String) : List (Request → MwOut) :=
  [infoMw manifestId, originGuard manifestId]

/-- The plugin's handling of one request. -/
def serveReq (manifestId : String) (req : Request) : MwOut :=
  runChain (bksMiddlewares manifestId) req

/-! ## `copyDevFiles` (lines 135–170)

One `try` block wraps the whole provisioning routine: deduplicate the output
directories, then for each directory create it if missing and copy the two
auxiliary files, each skipped when its source does not exist.  A thrown
error is caught once, outside the loop. -/

/-- `outputDirs` accumulation: push the resolved directory if not already
included (order-preserving deduplication). -/
def dedupPush (acc : List String) (d : String) : List String :=
  if d ∈ acc then acc else acc ++ [d]

/-- The deduplicated resolved output directories, one per entrypoint. -/
def outputDirs (root : String) (entries : List Entrypoint) : List String :=
  entries.foldl (fun acc e => dedupPush acc (resolveFrom root (jsDirname e.output))) []

/-- The source path of the event forwarder inside the runtime package. -/
def eventForwarderSrc (root : String) : String :=
  resolveFrom root "node_modules/@beekeeperstudio/plugin/dist/eventForwarder.js"

/-- The source path of the bundled error page next to the plugin module
(`path.resolve(__dirname, "../error.html")`). -/
def errorPageSrc (moduleDir : String) : String :=
  resolveFrom moduleDir "../error.html"

/-- One conditional copy of `copyDevFiles`: skip silently when the source
does not exist, otherwise copy and on failure rethrow carrying the current
state. -/
def copyStep (fs : FileSys) (src dst : String) : Except FileSys FileSys :=
  if fs.hasFile src then
    match fs.copyFile src dst with
    | .ok fsNew => .ok fsNew
    | .error _ => .error fs
  else .ok fs

/-- Provisioning of a single output directory; a raised filesystem error
carries the state at the throw. -/
def provisionDir (efSrc errSrc : String) (fs : FileSys) (dir : String) :
    Except FileSys FileSys :=
  match copyStep (if dir ∈ fs.dirs then fs else fs.mkdirRec dir) efSrc
      (resolveFrom dir "eventForwarder.js") with
  | .error e => .error e
  | .ok fs2 =>
    match copyStep fs2 errSrc (resolveFrom dir "error.html") with
    | .error e => .error e
    | .ok fs3 => .ok fs3

/-- The `outputDirs.forEach` loop; the `Except` error is the uncaught throw
escaping the loop. -/
def provisionAll (efSrc errSrc : String) (dirs : List String) (fs : FileSys) :
    Except FileSys FileSys :=
  match dirs with
  | [] => .ok fs
  | d :: ds =>
    match provisionDir efSrc errSrc fs d with
    | .error e => .error e
    | .ok fs1 => provisionAll efSrc errSrc ds fs1

/-- `copyDevFiles` with its single surrounding `try`/`catch`: on success one
success log; on a throw anywhere, the remaining steps are skipped and one
warning is logged. -/
def copyDevFiles (root moduleDir : String) (entries : List Entrypoint)
    (fs : FileSys) : FileSys × List Log :=
  match provisionAll (eventForwarderSrc root) (errorPageSrc moduleDir)
      (outputDirs root entries) fs with
  | .ok fs2 => (fs2, [.copiedDevFiles])
  | .error fsPartial => (fsPartial, [.warnCopyDevFiles])

/-! ## Dev-server port state and the file watcher (lines 105–116, 203–216)

`let portFromServer: number | undefined` starts undefined; the one-time
`listening` handler captures `server.httpServer.address().port`.
`watchFiles` runs during `configureServer` and computes
`const devPort = portFromServer || server.config.server.port || 5173`
once, at registration time; every `change` callback closes over that
constant. -/

/-- `portFromServer || server.config.server.port || 5173`. -/
def devPortNow (portFromServer cfgPort : Option Nat) : Nat :=
  jsOrN portFromServer (jsOrN cfgPort 5173)

/-- One registered watcher callback: the resolved absolute input path, its
entrypoint, and the `devPort` value captured by the `watchFiles` closure. -/
structure WatchReg where
  absPath : String
  entry : Entrypoint
  capturedPort : Nat
deriving DecidableEq, Repr

/-- `watchFiles(server)`: resolve each entrypoint input against the root and
register a change callback over the single `devPort` constant computed from
the port state at registration time. -/
def watchFiles (root : String) (cfgPort portFromServer : Option Nat)
    (entries : List Entrypoint) : List WatchReg :=
  let devPort := devPortNow portFromServer cfgPort
  entries.map (fun e => ⟨resolveFrom root e.input, e, devPort⟩)

/-- An invocation of the Transformer recorded by the model. -/
inductive WatchAction where
  | rewrite (e : Entrypoint) (port : Nat)
deriving DecidableEq, Repr

/-- Delivery of one `change` notification: every registered callback whose
resolved absolute path equals the notified path (resolved against the
watcher process's working directory) invokes `writeEntrypoint` with its
captured port. -/
def onChange (cwd : String) (regs : List WatchReg) (changed : String) :
    List WatchAction :=
  regs.filterMap (fun r =>
    if resolveFrom cwd changed == r.absPath then
      some (.rewrite r.entry r.capturedPort)
    else none)

/-- The `listening` handler's capture of the real bound port: kept only when
the reported address has a truthy `port`. -/
def captureListening (portFromServer : Option Nat) (addrPort : Option Nat) :
    Option Nat :=
  match addrPort with
  | some p => if p ≠ 0 then some p else portFromServer
  | none => portFromServer

/-- The `writeAll` rewrites triggered right after the capture, reading the
port state afresh. -/
def writeAllActions (cfgPort portFromServer : Option Nat)
    (entries : List Entrypoint) : List WatchAction :=
  entries.map (fun e => .rewrite e (devPortNow portFromServer cfgPort))

/-! ## Lemmas about the URL rewrite scan -/

theorem splitRun_append : ∀ s : List Char, (splitRun s).1 ++ (splitRun s).2 = s
  | [] => rfl
  | c :: cs => by
    by_cases h : isQuote c
    · simp [splitRun, h]
    · simp [splitRun, h, splitRun_append cs]

theorem splitRun_quoteFree : ∀ s : List Char, ∀ c ∈ (splitRun s).1, isQuote c = false
  | [] => by simp [splitRun]
  | c :: cs => by
    intro x hx
    by_cases h : isQuote c = true
    · rw [splitRun, if_pos h] at hx
      exact absurd hx (List.not_mem_nil x)
    · have hc : isQuote c = false := by simpa using h
      rw [splitRun, if_neg h] at hx
      rcases List.mem_cons.mp hx with h1 | h1
      · rw [h1]; exact hc
      · exact splitRun_quoteFree cs x h1

theorem splitRun_of_quoteFree :
    ∀ (p : List Char), (∀ c ∈ p, isQuote c = false) →
      ∀ (q : Char) (r : List Char), isQuote q = true →
        splitRun (p ++ q :: r) = (p, q :: r)
  | [], _, q, r, hq => by simp [splitRun, hq]
  | c :: p, hp, q, r, hq => by
    have hc : isQuote c = false := hp c (List.mem_cons_self c p)
    have ih := splitRun_of_quoteFree p (fun x hx => hp x (List.mem_cons_of_mem c hx)) q r hq
    simp [splitRun, hc, ih]

theorem matchAfterEq_some {a a2 p rest : List Char} {r : List Char}
    (h : matchAfterEq a r = some (a2, p, rest)) :
    a2 = a ∧ p ≠ [] ∧ (∀ c ∈ p, isQuote c = false) ∧
      ∃ q q2, isQuote q = true ∧ isQuote q2 = true ∧
        r = q :: '/' :: (p ++ q2 :: rest) := by
  unfold matchAfterEq at h
  split at h
  · rename_i q rest2
    split at h
    · rename_i hq
      split at h
      · rename_i p1 pr q2 rest3 hsp
        split at h
        · rename_i hq2
          have hinj := Option.some.injEq _ _ ▸ h
          obtain ⟨ha, hp, hr⟩ : a = a2 ∧ p1 :: pr = p ∧ rest3 = rest := by
            simpa using h
          subst ha hp hr
          refine ⟨rfl, by simp, ?_, q, q2, hq, hq2, ?_⟩
          · intro c hc
            have := splitRun_quoteFree rest2
            rw [hsp] at this
            exact this c hc
          · have hap := splitRun_append rest2
            rw [hsp] at hap
            simp [← hap]
        · exact absurd h (by simp)
      · exact absurd h (by simp)
    · exact absurd h (by simp)
  · exact absurd h (by simp)

theorem srcEq_chars : "src=".data = ['s', 'r', 'c', '='] := rfl

theorem hrefEq_chars : "href=".data = ['h', 'r', 'e', 'f', '='] := rfl

theorem countQuotes_append (s t : List Char) :
    countQuotes (s ++ t) = countQuotes s + countQuotes t := by
  simp [countQuotes, List.countP_append]

theorem matchUrlAt_quotes {s : List Char} {x : List Char × List Char × List Char}
    (h : matchUrlAt s = some x) : 2 ≤ countQuotes s := by
  obtain ⟨a2, p, rest⟩ := x
  have hsplit : s.take 4 ++ s.drop 4 = s := List.take_append_drop 4 s
  have hsplit5 : s.take 5 ++ s.drop 5 = s := List.take_append_drop 5 s
  unfold matchUrlAt at h
  split at h
  · obtain ⟨-, -, hpq, q, q2, hq, hq2, hr⟩ := matchAfterEq_some h
    have : 2 ≤ countQuotes (s.drop 4) := by
      have hsl : isQuote '/' = false := by decide
      rw [hr]
      simp [countQuotes, List.countP_cons, List.countP_append, hq, hq2, hsl]
      omega
    calc 2 ≤ countQuotes (s.drop 4) := this
      _ ≤ countQuotes (s.take 4) + countQuotes (s.drop 4) := Nat.le_add_left _ _
      _ = countQuotes s := by rw [← countQuotes_append, hsplit]
  · split at h
    · obtain ⟨-, -, hpq, q, q2, hq, hq2, hr⟩ := matchAfterEq_some h
      have : 2 ≤ countQuotes (s.drop 5) := by
        have hsl : isQuote '/' = false := by decide
        rw [hr]
        simp [countQuotes, List.countP_cons, List.countP_append, hq, hq2, hsl]
        omega
      calc 2 ≤ countQuotes (s.drop 5) := this
        _ ≤ countQuotes (s.take 5) + countQuotes (s.drop 5) := Nat.le_add_left _ _
        _ = countQuotes s := by rw [← countQuotes_append, hsplit5]
    · exact absurd h (by simp)

theorem matchUrlAt_none_of_quotes_le_one {s : List Char}
    (h : countQuotes s ≤ 1) : matchUrlAt s = none := by
  cases hm : matchUrlAt s with
  | none => rfl
  | some x => exact absurd (matchUrlAt_quotes hm) (by omega)

theorem matchUrlAt_rest_length {s : List Char} {a p rest : List Char}
    (h : matchUrlAt s = some (a, p, rest)) : rest.length < s.length := by
  unfold matchUrlAt at h
  split at h
  · obtain ⟨-, -, -, q, q2, hq, hq2, hr⟩ := matchAfterEq_some h
    have h4 : s.take 4 ++ s.drop 4 = s := List.take_append_drop 4 s
    have : s.length = (s.take 4).length + (s.drop 4).length := by
      rw [← List.length_append, h4]
    rw [hr] at this
    simp at this
    omega
  · split at h
    · obtain ⟨-, -, -, q, q2, hq, hq2, hr⟩ := matchAfterEq_some h
      have h5 : s.take 5 ++ s.drop 5 = s := List.take_append_drop 5 s
      have : s.length = (s.take 5).length + (s.drop 5).length := by
        rw [← List.length_append, h5]
      rw [hr] at this
      simp at this
      omega
    · exact absurd h (by simp)

theorem rewriteAux_nil (port : Nat) : ∀ f, rewriteAux port f [] = []
  | 0 => rfl
  | _ + 1 => rfl

theorem rewriteAux_fuel (port : Nat) :
    ∀ f1 f2 s, s.length ≤ f1 → s.length ≤ f2 →
      rewriteAux port f1 s = rewriteAux port f2 s := by
  intro f1
  induction f1 with
  | zero =>
    intro f2 s h1 _
    have hs : s = [] := List.eq_nil_of_length_eq_zero (Nat.le_zero.mp h1)
    subst hs
    rw [rewriteAux_nil, rewriteAux_nil]
  | succ f ih =>
    intro f2 s h1 h2
    cases s with
    | nil => rw [rewriteAux_nil, rewriteAux_nil]
    | cons c cs =>
      cases f2 with
      | zero => simp at h2
      | succ f2 =>
        show rewriteAux port (f + 1) (c :: cs) = rewriteAux port (f2 + 1) (c :: cs)
        simp only [rewriteAux]
        cases hm : matchUrlAt (c :: cs) with
        | none =>
          have := ih f2 cs (by simpa using h1) (by simpa using h2)
          simp [this]
        | some x =>
          obtain ⟨a, p, rest⟩ := x
          have hl := matchUrlAt_rest_length hm
          simp only [List.length_cons] at h1 h2 hl
          have := ih f2 rest (by omega) (by omega)
          simp [this]

theorem rewriteUrls_cons_none (port : Nat) {c : Char} {cs : List Char}
    (h : matchUrlAt (c :: cs) = none) :
    rewriteUrls port (c :: cs) = c :: rewriteUrls port cs := by
  simp only [rewriteUrls, List.length_cons, rewriteAux, h]

theorem rewriteUrls_match (port : Nat) {s a p rest : List Char}
    (h : matchUrlAt s = some (a, p, rest)) :
    rewriteUrls port s = replacementFor port a p ++ rewriteUrls port rest := by
  cases s with
  | nil => exact absurd h (by simp [matchUrlAt, matchAfterEq])
  | cons c cs =>
    have hl := matchUrlAt_rest_length h
    simp only [List.length_cons] at hl
    have hf : rewriteAux port cs.length rest = rewriteAux port rest.length rest :=
      rewriteAux_fuel port cs.length rest.length rest (by omega) (by omega)
    simp only [rewriteUrls, List.length_cons, rewriteAux, h, hf]

theorem rewriteUrls_no_match (port : Nat) :
    ∀ s : List Char, hasMatch s = false → rewriteUrls port s = s
  | [], _ => rfl
  | c :: cs, h => by
    have h1 : matchUrlAt (c :: cs) = none ∧ hasMatch cs = false := by
      cases hm : matchUrlAt (c :: cs) with
      | none =>
        refine ⟨rfl, ?_⟩
        rw [hasMatch, hm] at h
        simpa using h
      | some x =>
        rw [hasMatch, hm] at h
        simp at h
    rw [rewriteUrls_cons_none port h1.1, rewriteUrls_no_match port cs h1.2]

theorem hasMatch_quoteFree_single :
    ∀ (v : List Char), (∀ c ∈ v, isQuote c = false) →
      ∀ q : Char, isQuote q = true → hasMatch (v ++ [q]) = false
  | [], _, q, hq => by
    simp only [List.nil_append, hasMatch]
    rw [matchUrlAt_none_of_quotes_le_one
      (by simp [countQuotes, List.countP_cons, hq])]
    rfl
  | c :: v, hv, q, hq => by
    have hc : isQuote c = false := hv c (List.mem_cons_self c v)
    have hvr : ∀ x ∈ v, isQuote x = false :=
      fun x hx => hv x (List.mem_cons_of_mem c hx)
    have hcount : countQuotes ((c :: v) ++ [q]) ≤ 1 := by
      have h0 : List.countP (fun x => isQuote x) v = 0 :=
        List.countP_eq_zero.mpr (by intro a ha; simp [hvr a ha])
      simp [countQuotes, List.countP_cons, List.countP_append, hc, hq, h0]
    simp only [List.cons_append, hasMatch]
    rw [matchUrlAt_none_of_quotes_le_one (by simpa using hcount)]
    simp only [Option.isSome_none, Bool.false_or]
    exact hasMatch_quoteFree_single v hvr q hq

theorem isQuote_eq {c : Char} (h : isQuote c = true) : c = dq ∨ c = sq := by
  simpa [isQuote] using h

theorem matchUrlAt_src (rest : List Char) :
    matchUrlAt ('s' :: 'r' :: 'c' :: '=' :: rest) = matchAfterEq ("src".data) rest := rfl

theorem matchUrlAt_href (rest : List Char) :
    matchUrlAt ('h' :: 'r' :: 'e' :: 'f' :: '=' :: rest) =
      matchAfterEq ("href".data) rest := rfl

theorem matchUrlAt_r (w : List Char) : matchUrlAt ('r' :: w) = none := rfl

theorem matchUrlAt_c (w : List Char) : matchUrlAt ('c' :: w) = none := rfl

theorem matchUrlAt_e (w : List Char) : matchUrlAt ('e' :: w) = none := rfl

theorem matchUrlAt_f (w : List Char) : matchUrlAt ('f' :: w) = none := rfl

theorem matchUrlAt_eqch (w : List Char) : matchUrlAt ('=' :: w) = none := rfl

theorem matchUrlAt_quote_head {q : Char} (hq : isQuote q = true) (w : List Char) :
    matchUrlAt (q :: w) = none := by
  rcases isQuote_eq hq with h | h <;> subst h <;> rfl

theorem matchAfterEq_build (a : List Char) {q q2 : Char} (hq : isQuote q = true)
    (hq2 : isQuote q2 = true) {p : List Char} (hp : p ≠ [])
    (hpq : ∀ c ∈ p, isQuote c = false) (rest : List Char) :
    matchAfterEq a (q :: '/' :: (p ++ q2 :: rest)) = some (a, p, rest) := by
  cases p with
  | nil => exact absurd rfl hp
  | cons p1 pr =>
    have hsp : splitRun ((p1 :: pr) ++ q2 :: rest) = (p1 :: pr, q2 :: rest) :=
      splitRun_of_quoteFree _ hpq q2 rest hq2
    simp only [List.cons_append] at hsp
    simp [matchAfterEq, hq, hsp, hq2]

theorem matchAfterEq_no_slash (a : List Char) (q : Char) {w : List Char}
    (hw : ∀ c t, w = c :: t → c ≠ '/') :
    matchAfterEq a (q :: w) = none := by
  cases w with
  | nil => rfl
  | cons c t =>
    have hc : c ≠ '/' := hw c t rfl
    unfold matchAfterEq
    split
    · rename_i heq
      simp at heq
      exact absurd heq.2.1 hc
    · rfl

theorem hasMatch_occurrence_false (attr : List Char)
    (hattr : attr = "src".data ∨ attr = "href".data) {q q2 : Char}
    (hq : isQuote q = true) (hq2 : isQuote q2 = true) {v : List Char}
    (hv : ∀ c ∈ v, isQuote c = false) (hv0 : ∀ c t, v = c :: t → c ≠ '/') :
    hasMatch (attr ++ '=' :: q :: (v ++ [q2])) = false := by
  have hW : ∀ c t, (v ++ [q2] : List Char) = c :: t → c ≠ '/' := by
    intro c t hct
    cases v with
    | nil =>
      simp at hct
      intro hcc
      rw [hct.1, hcc] at hq2
      exact absurd hq2 (by decide)
    | cons v1 vt =>
      simp at hct
      rw [← hct.1]
      exact hv0 v1 vt rfl
  have hmz : matchAfterEq ("src".data) (q :: (v ++ [q2])) = none :=
    matchAfterEq_no_slash _ _ hW
  have hmz2 : matchAfterEq ("href".data) (q :: (v ++ [q2])) = none :=
    matchAfterEq_no_slash _ _ hW
  rcases hattr with h | h <;> subst h
  · show hasMatch ('s' :: 'r' :: 'c' :: '=' :: q :: (v ++ [q2])) = false
    simp only [hasMatch, matchUrlAt_src, matchUrlAt_r, matchUrlAt_c,
      matchUrlAt_eqch, matchUrlAt_quote_head hq, hmz, Option.isSome_none,
      Bool.false_or]
    exact hasMatch_quoteFree_single v hv q2 hq2
  · show hasMatch ('h' :: 'r' :: 'e' :: 'f' :: '=' :: q :: (v ++ [q2])) = false
    simp only [hasMatch, matchUrlAt_href, matchUrlAt_r, matchUrlAt_e,
      matchUrlAt_f, matchUrlAt_eqch, matchUrlAt_quote_head hq, hmz2,
      Option.isSome_none, Bool.false_or]
    exact hasMatch_quoteFree_single v hv q2 hq2

/-! ## Lemmas about the head injection -/

theorem findGt_decomp : ∀ s : List Char, ∀ a b, findGt s = some (a, b) →
    s = a ++ '>' :: b
  | [], a, b, h => by simp [findGt] at h
  | c :: cs, a, b, h => by
    by_cases hc : c = '>'
    · rw [findGt, if_pos hc] at h
      simp at h
      obtain ⟨h1, h2⟩ := h
      subst h1
      subst h2
      simp [hc]
    · rw [findGt, if_neg hc] at h
      cases hfg : findGt cs with
      | none => rw [hfg] at h; simp at h
      | some pr =>
        rw [hfg] at h
        simp at h
        have ih := findGt_decomp cs pr.1 pr.2 (by rw [hfg])
        rw [← h.1, ← h.2]
        simpa using ih

theorem firstHeadSplit_spec (ins : List Char) :
    ∀ s pre tag after, firstHeadSplit s = some (pre, (tag, after)) →
      pre ++ tag ++ after = s ∧ injectHeadAux ins s = pre ++ tag ++ ins ++ after
  | [], pre, tag, after, h => by simp [firstHeadSplit] at h
  | c :: cs, pre, tag, after, h => by
    by_cases hh : startsWithHeadCI (c :: cs) = true
    · rw [firstHeadSplit, if_pos hh] at h
      cases hfg : findGt ((c :: cs).drop 5) with
      | some pr =>
        rw [hfg] at h
        simp at h
        obtain ⟨h1, h2, h3⟩ := h
        subst h1
        subst h2
        subst h3
        have hd : (c :: cs).take 5 ++ (pr.1 ++ '>' :: pr.2) = c :: cs := by
          have hgd := findGt_decomp ((c :: cs).drop 5) pr.1 pr.2 (by rw [hfg])
          rw [← hgd]
          exact List.take_append_drop 5 (c :: cs)
        constructor
        · simpa using hd
        · rw [injectHeadAux, if_pos hh, hfg]
          simp
      | none =>
        rw [hfg] at h
        cases hfs : firstHeadSplit cs with
        | none => rw [hfs] at h; simp at h
        | some x =>
          obtain ⟨y1, y2, y3⟩ := x
          rw [hfs] at h
          simp at h
          obtain ⟨h1, h2, h3⟩ := h
          subst h1
          subst h2
          subst h3
          have ih := firstHeadSplit_spec ins cs y1 y2 y3 (by rw [hfs])
          constructor
          · simp [ih.1]
          · rw [injectHeadAux, if_pos hh, hfg]
            simp [ih.2]
    · rw [firstHeadSplit, if_neg hh] at h
      cases hfs : firstHeadSplit cs with
      | none => rw [hfs] at h; simp at h
      | some x =>
        obtain ⟨y1, y2, y3⟩ := x
        rw [hfs] at h
        simp at h
        obtain ⟨h1, h2, h3⟩ := h
        subst h1
        subst h2
        subst h3
        have ih := firstHeadSplit_spec ins cs y1 y2 y3 (by rw [hfs])
        constructor
        · simp [ih.1]
        · rw [injectHeadAux, if_neg hh]
          simp [ih.2]

/-! ## Lemmas about the provisioning routine -/

theorem hasFile_write_self (fs : FileSys) (p : String) (c : List Char) :
    (fs.write p c).hasFile p = true := by
  simp [FileSys.hasFile, FileSys.write]

theorem hasFile_write_mono (fs : FileSys) (p : String) (c : List Char)
    {q : String} (h : fs.hasFile q = true) : (fs.write p c).hasFile q = true := by
  simp [FileSys.hasFile, FileSys.write] at h ⊢
  exact Or.inr h

theorem copyFile_of_no_fail {fs : FileSys} (h : fs.failCopyTo = [])
    (src dst : String) : fs.copyFile src dst = .ok (fs.write dst (fs.read src)) := by
  simp [FileSys.copyFile, h]

/-- The filesystem `copyStep` produces when no copy failure is injected. -/
def copyStepOk (fs : FileSys) (src dst : String) : FileSys :=
  if fs.hasFile src then fs.write dst (fs.read src) else fs

theorem copyStep_eq_ok {fs : FileSys} (h : fs.failCopyTo = []) (src dst : String) :
    copyStep fs src dst = .ok (copyStepOk fs src dst) := by
  unfold copyStep copyStepOk
  by_cases hs : fs.hasFile src = true
  · rw [if_pos hs, if_pos hs, copyFile_of_no_fail h]
  · rw [if_neg hs, if_neg hs]

theorem copyStepOk_failCopyTo (fs : FileSys) (src dst : String) :
    (copyStepOk fs src dst).failCopyTo = fs.failCopyTo := by
  unfold copyStepOk
  by_cases hs : fs.hasFile src = true <;> simp [hs, FileSys.write]

theorem copyStepOk_dirs (fs : FileSys) (src dst : String) :
    (copyStepOk fs src dst).dirs = fs.dirs := by
  unfold copyStepOk
  by_cases hs : fs.hasFile src = true <;> simp [hs, FileSys.write]

theorem copyStepOk_mono (fs : FileSys) (src dst : String) {p : String}
    (h : fs.hasFile p = true) : (copyStepOk fs src dst).hasFile p = true := by
  unfold copyStepOk
  by_cases hs : fs.hasFile src = true
  · rw [if_pos hs]
    exact hasFile_write_mono _ _ _ h
  · rwa [if_neg hs]

theorem copyStepOk_dst (fs : FileSys) (src dst : String)
    (h : fs.hasFile src = true) : (copyStepOk fs src dst).hasFile dst = true := by
  unfold copyStepOk
  rw [if_pos h]
  exact hasFile_write_self _ _ _

/-- The filesystem after a successful provisioning of one directory. -/
def provisionDirOk (efSrc errSrc : String) (fs : FileSys) (d : String) : FileSys :=
  copyStepOk
    (copyStepOk (if d ∈ fs.dirs then fs else fs.mkdirRec d) efSrc
      (resolveFrom d "eventForwarder.js"))
    errSrc (resolveFrom d "error.html")

theorem provisionDir_eq_ok {fs : FileSys} (h : fs.failCopyTo = [])
    (efSrc errSrc d : String) :
    provisionDir efSrc errSrc fs d = .ok (provisionDirOk efSrc errSrc fs d) := by
  have h1 : (if d ∈ fs.dirs then fs else fs.mkdirRec d).failCopyTo = [] := by
    by_cases hd : d ∈ fs.dirs <;> simp [hd, FileSys.mkdirRec, h]
  have h2 : (copyStepOk (if d ∈ fs.dirs then fs else fs.mkdirRec d) efSrc
      (resolveFrom d "eventForwarder.js")).failCopyTo = [] := by
    rw [copyStepOk_failCopyTo]
    exact h1
  unfold provisionDir provisionDirOk
  simp only [copyStep_eq_ok h1, copyStep_eq_ok h2]

theorem provisionDirOk_props (efSrc errSrc : String) (fs : FileSys) (d : String) :
    (provisionDirOk efSrc errSrc fs d).failCopyTo = fs.failCopyTo
    ∧ d ∈ (provisionDirOk efSrc errSrc fs d).dirs
    ∧ (∀ p, fs.hasFile p = true → (provisionDirOk efSrc errSrc fs d).hasFile p = true)
    ∧ (∀ d2 ∈ fs.dirs, d2 ∈ (provisionDirOk efSrc errSrc fs d).dirs)
    ∧ (fs.hasFile efSrc = true →
        (provisionDirOk efSrc errSrc fs d).hasFile
          (resolveFrom d "eventForwarder.js") = true)
    ∧ (fs.hasFile errSrc = true →
        (provisionDirOk efSrc errSrc fs d).hasFile
          (resolveFrom d "error.html") = true) := by
  classical
  unfold provisionDirOk
  set fs1 := if d ∈ fs.dirs then fs else fs.mkdirRec d with hfs1
  have hfiles1 : fs1.files = fs.files := by
    rw [hfs1]
    by_cases hd : d ∈ fs.dirs <;> simp [hd, FileSys.mkdirRec]
  have hfail1 : fs1.failCopyTo = fs.failCopyTo := by
    rw [hfs1]
    by_cases hd : d ∈ fs.dirs <;> simp [hd, FileSys.mkdirRec]
  have hd1 : d ∈ fs1.dirs ∧ ∀ d2 ∈ fs.dirs, d2 ∈ fs1.dirs := by
    rw [hfs1]
    by_cases hd : d ∈ fs.dirs
    · simp [hd]
    · simp [hd, FileSys.mkdirRec]
      intro d2 h2
      exact Or.inr h2
  have hhas1 : ∀ p, fs.hasFile p = true → fs1.hasFile p = true := by
    intro p hp
    unfold FileSys.hasFile at hp ⊢
    rwa [hfiles1]
  refine ⟨?_, ?_, ?_, ?_, ?_, ?_⟩
  · rw [copyStepOk_failCopyTo, copyStepOk_failCopyTo, hfail1]
  · rw [copyStepOk_dirs, copyStepOk_dirs]
    exact hd1.1
  · intro p hp
    exact copyStepOk_mono _ _ _ (copyStepOk_mono _ _ _ (hhas1 p hp))
  · intro d2 h2
    rw [copyStepOk_dirs, copyStepOk_dirs]
    exact hd1.2 d2 h2
  · intro hef
    exact copyStepOk_mono _ _ _ (copyStepOk_dst _ _ _ (hhas1 efSrc hef))
  · intro herr
    exact copyStepOk_dst _ _ _ (copyStepOk_mono _ _ _ (hhas1 errSrc herr))

theorem provisionAll_of_no_fail (efSrc errSrc : String) :
    ∀ (dirs : List String) (fs : FileSys), fs.failCopyTo = [] →
      ∃ fs2, provisionAll efSrc errSrc dirs fs = .ok fs2 ∧ fs2.failCopyTo = []
        ∧ (∀ p, fs.hasFile p = true → fs2.hasFile p = true)
        ∧ (∀ d2 ∈ fs.dirs, d2 ∈ fs2.dirs)
        ∧ (∀ d ∈ dirs, d ∈ fs2.dirs)
        ∧ (fs.hasFile efSrc = true →
            ∀ d ∈ dirs, fs2.hasFile (resolveFrom d "eventForwarder.js") = true)
        ∧ (fs.hasFile errSrc = true →
            ∀ d ∈ dirs, fs2.hasFile (resolveFrom d "error.html") = true)
  | [], fs, h =>
    ⟨fs, rfl, h, fun _ hp => hp, fun _ h2 => h2, by simp, by simp, by simp⟩
  | d :: ds, fs, h => by
    obtain ⟨hp1a, hp1b, hp1c, hp1d, hp1e, hp1f⟩ :=
      provisionDirOk_props efSrc errSrc fs d
    have hg1fail : (provisionDirOk efSrc errSrc fs d).failCopyTo = [] := by
      rw [hp1a, h]
    obtain ⟨fs2, heq, hfail, hmono, hdmono, hdirs, hef, herr⟩ :=
      provisionAll_of_no_fail efSrc errSrc ds (provisionDirOk efSrc errSrc fs d)
        hg1fail
    refine ⟨fs2, ?_, hfail, ?_, ?_, ?_, ?_, ?_⟩
    · unfold provisionAll
      rw [provisionDir_eq_ok h]
      exact heq
    · exact fun p hp => hmono p (hp1c p hp)
    · exact fun d2 h2 => hdmono d2 (hp1d d2 h2)
    · intro x hx
      rcases List.mem_cons.mp hx with hx | hx
      · subst hx
        exact hdmono x hp1b
      · exact hdirs x hx
    · intro hsrc x hx
      rcases List.mem_cons.mp hx with hx | hx
      · subst hx
        exact hmono _ (hp1e hsrc)
      · exact hef (hp1c efSrc hsrc) x hx
    · intro hsrc x hx
      rcases List.mem_cons.mp hx with hx | hx
      · subst hx
        exact hmono _ (hp1f hsrc)
      · exact herr (hp1c errSrc hsrc) x hx

/-! ## Substring occurrence helpers used by the claim statements -/

/-- Whether `pat` occurs as a contiguous substring of the text. -/
def containsSeq (pat : List Char) : List Char → Bool
  | [] => pat.isEmpty
  | c :: cs => pat.isPrefixOf (c :: cs) || containsSeq pat cs

/-- The number of (possibly overlapping) occurrences of `pat`. -/
def countSeq (pat : List Char) : List Char → Nat
  | [] => 0
  | c :: cs => (if pat.isPrefixOf (c :: cs) then 1 else 0) + countSeq pat cs

/-! ## The claims -/

/-- C1 (code bug): the watcher claim says a change notification rewrites
with the currently captured port once `listening` has fired.  In the code
`watchFiles` evaluates `portFromServer || server.config.server.port || 5173`
once, when the callbacks are registered during `configureServer` (before
`listening`), and every callback closes over that constant.  Evaluated
scenario: no configured port, watchers registered before listening, the
server then binds port 4000 — the listening-driven `writeAll` uses 4000, but
the watch-triggered rewrite still uses the stale 5173. -/
theorem c1_watch_port_eval :
    onChange "/proj"
      (watchFiles "/proj" none none [⟨"index.html", "dist/index.html"⟩])
      "/proj/index.html" =
      [.rewrite ⟨"index.html", "dist/index.html"⟩ 5173]
    ∧ captureListening none (some 4000) = some 4000
    ∧ writeAllActions none (captureListening none (some 4000))
        [⟨"index.html", "dist/index.html"⟩] =
      [.rewrite ⟨"index.html", "dist/index.html"⟩ 4000]
    ∧ devPortNow (captureListening none (some 4000)) none = 4000
    ∧ (5173 : Nat) ≠ 4000 := by
  refine ⟨by decide, by decide, by decide, by decide, by decide⟩

/-- C2: the origin guard responds with an empty 403 exactly when the request
carries an `Origin` header starting with `plugin://`, the resolved identity
is non-empty, and the origin differs from `plugin://<identity>`; in every
other case it passes the request through (`next`). -/
theorem c2_origin_guard (manifestId : String) (req : Request) :
    (originGuard manifestId req = .done 403 [] "" ↔
      ∃ o, req.origin = some o ∧ jsStartsWith "plugin://" o = true ∧
        manifestId ≠ "" ∧ o ≠ "plugin://" ++ manifestId)
    ∧ (originGuard manifestId req = .done 403 [] "" ∨
        originGuard manifestId req = .next) := by
  obtain ⟨url, origin⟩ := req
  cases origin with
  | none => simp [originGuard]
  | some o =>
    by_cases h2 : jsStartsWith "plugin://" o = true
    · have h1 : o ≠ "" := by
        intro he
        rw [he] at h2
        exact absurd h2 (by decide)
      by_cases h3 : manifestId = ""
      · subst h3
        simp [originGuard, h2, h1]
      · by_cases h4 : o = "plugin://" ++ manifestId
        · subst h4
          simp [originGuard, h2, h1, h3]
        · simp [originGuard, h2, h1, h3, h4]
    · have h2f : jsStartsWith "plugin://" o = false := by
        simpa using h2
      simp [originGuard, h2f]

/-- C3 counterexample: the claim says the rewrite preserves the original
quoting style; the replacement template hard-codes double quotes, so the
single-quoted occurrence `href='/x'` is rewritten with double quotes, not
with the claimed single quotes. -/
theorem c3_counterexample :
    rewriteUrls 3000 ("href=\x27/x\x27".data) =
      "href=\x22http://localhost:3000/x\x22".data
    ∧ rewriteUrls 3000 ("href=\x27/x\x27".data) ≠
      "href=\x27http://localhost:3000/x\x27".data := by
  refine ⟨by decide, by decide⟩

/-- C3 (amended): every occurrence `src`/`href` `=` quote `/path` quote
(with a non-empty quote-free path) is rewritten to
`attr="http://localhost:<port>/path"` — always with double quotes, whatever
the original quoting style — and a standalone occurrence whose value does
not begin with `/` (an absolute URL with a scheme, or a relative path) is
left unmodified. -/
theorem c3_url_rewrite_amended (port : Nat) (attr : List Char)
    (hattr : attr = "src".data ∨ attr = "href".data) (q q2 : Char)
    (hq : isQuote q = true) (hq2 : isQuote q2 = true) :
    (∀ p rest : List Char, p ≠ [] → (∀ c ∈ p, isQuote c = false) →
      rewriteUrls port (attr ++ '=' :: q :: '/' :: (p ++ q2 :: rest)) =
        replacementFor port attr p ++ rewriteUrls port rest)
    ∧ (∀ v : List Char, (∀ c ∈ v, isQuote c = false) →
        (∀ c t, v = c :: t → c ≠ '/') →
        rewriteUrls port (attr ++ '=' :: q :: (v ++ [q2])) =
          attr ++ '=' :: q :: (v ++ [q2])) := by
  constructor
  · intro p rest hp hpq
    have hb := matchAfterEq_build attr hq hq2 hp hpq rest
    have hmu : matchUrlAt (attr ++ '=' :: q :: '/' :: (p ++ q2 :: rest)) =
        some (attr, p, rest) := by
      rcases hattr with h | h <;> subst h
      · show matchUrlAt ('s' :: 'r' :: 'c' :: '=' ::
            (q :: '/' :: (p ++ q2 :: rest))) = _
        rw [matchUrlAt_src]
        exact hb
      · show matchUrlAt ('h' :: 'r' :: 'e' :: 'f' :: '=' ::
            (q :: '/' :: (p ++ q2 :: rest))) = _
        rw [matchUrlAt_href]
        exact hb
    exact rewriteUrls_match port hmu
  · intro v hv hv0
    exact rewriteUrls_no_match port _
      (hasMatch_occurrence_false attr hattr hq hq2 hv hv0)

/-- Witness for C3: the amended theorem applied at a double-quoted `src`
occurrence (rewritten) and at a single-quoted absolute URL (untouched). -/
theorem c3_witness :
    rewriteUrls 3000
        ("src".data ++ '=' :: dq :: '/' :: ("logo.png".data ++ dq :: [])) =
      replacementFor 3000 ("src".data) ("logo.png".data) ++ rewriteUrls 3000 []
    ∧ rewriteUrls 3000
        ("href".data ++ '=' :: sq :: (('h' :: "ttp://a/b".data) ++ [sq])) =
      "href".data ++ '=' :: sq :: (('h' :: "ttp://a/b".data) ++ [sq]) := by
  constructor
  · exact (c3_url_rewrite_amended 3000 ("src".data) (Or.inl rfl) dq dq
      (by decide) (by decide)).1 ("logo.png".data) [] (by decide) (by decide)
  · exact (c3_url_rewrite_amended 3000 ("href".data) (Or.inr rfl) sq sq
      (by decide) (by decide)).2 ('h' :: "ttp://a/b".data) (by decide)
      (by intro c t hct
          have hc : c = 'h' ∧ t = "ttp://a/b".data := by
            simpa using hct.symm
          rw [hc.1]
          decide)

/-- C4 counterexample: the claim places the injected fragment immediately
after the first `<head>` opening tag.  On
`<header></header><head></head>` the case-insensitive pattern
`<head[^>]*>` first matches the `<header>` tag, so the fragment follows
`<header>`, and nowhere in the output does the fragment immediately follow
the (only) `<head>` tag — even though the fragment is present. -/
theorem c4_counterexample :
    containsSeq ("<head>".data) ("<header></header><head></head>".data) = true
    ∧ firstHeadSplit ("<header></header><head></head>".data) =
        some ([], ("<header>".data, "</header><head></head>".data))
    ∧ containsSeq ("<head>".data ++ insertedText [] 3000)
        (injectDevClient [] 3000 ("<header></header><head></head>".data)) = false
    ∧ containsSeq (insertedText [] 3000)
        (injectDevClient [] 3000 ("<header></header><head></head>".data)) = true := by
  refine ⟨by decide, by decide, by decide, by decide⟩

/-- C4 (amended): whenever the case-insensitive pattern `<head[^>]*>` has a
match — its first match being the first case-insensitive occurrence of
`<head` followed by a later `>`, possibly a tag such as `<header>` rather
than the first `<head>` tag — a single transform inserts the client-loader
fragment exactly once, immediately after that first match, and the final
output is the URL-rewrite pass applied to that injected document. -/
theorem c4_head_injection_amended (mid : List Char) (port : Nat)
    (html pre tag after : List Char)
    (h : firstHeadSplit html = some (pre, (tag, after))) :
    pre ++ tag ++ after = html
    ∧ injectDevClient mid port html =
        rewriteUrls port (pre ++ tag ++ insertedText mid port ++ after) := by
  have hs := firstHeadSplit_spec (insertedText mid port) html pre tag after h
  refine ⟨hs.1, ?_⟩
  unfold injectDevClient
  rw [hs.2]

/-- Witness for C4: the amended theorem applied to `<head></head>`. -/
theorem c4_witness :
    ([] : List Char) ++ "<head>".data ++ "</head>".data = "<head></head>".data
    ∧ injectDevClient ("abc123".data) 3000 ("<head></head>".data) =
        rewriteUrls 3000 (([] : List Char) ++ "<head>".data ++
          insertedText ("abc123".data) 3000 ++ "</head>".data) :=
  c4_head_injection_amended ("abc123".data) 3000 ("<head></head>".data)
    [] ("<head>".data) ("</head>".data) (by decide)

/-- C5 (code bug at line 61): when the source file exists, `writeEntrypoint`
calls `injectDevClient`, whose first statement evaluates
`window?.location?.href`.  Node.js declares no global `window` and optional
chaining does not guard resolution of the base identifier, so a
`ReferenceError` is thrown before anything is written; the claim says the
transformed content is written and no exception is raised.  The
missing-source branch behaves exactly as claimed: a warning naming the
resolved path, no exception, no filesystem change. -/
theorem c5_writeEntrypoint_eval :
    writeEntrypoint "/proj" []
        (FileSys.mk [("/proj/index.html", "<head></head>".data)] [] [])
        ⟨"index.html", "dist/index.html"⟩ 5173 =
      .error (.referenceError "window")
    ∧ writeEntrypoint "/proj" [] (FileSys.mk [] [] [])
        ⟨"index.html", "dist/index.html"⟩ 5173 =
      .ok (FileSys.mk [] [] [], [.warnMissingSource "/proj/index.html"]) :=
  ⟨rfl, rfl⟩

/-- C6: `getManifestId` returns the empty string when the manifest file is
absent, when parsing throws, and when the parsed value has no `id`
property; it returns the `id` value for a non-empty string id; every
read/parse failure is caught and surfaces only as a warning log, never as
an exception to the caller. -/
theorem c6_getManifestId (root : String) (fs : FileSys) :
    (fs.hasFile (resolveFrom root "manifest.json") = false →
      getManifestId root fs = (.str [], []))
    ∧ (fs.hasFile (resolveFrom root "manifest.json") = true →
        ((∀ e, jparse (fs.read (resolveFrom root "manifest.json")) = .error e →
            getManifestId root fs = (.str [], [.warnManifest]))
         ∧ (∀ v, jparse (fs.read (resolveFrom root "manifest.json")) = .ok v →
              propAccess v ("id".data) = .ok .undefined →
              getManifestId root fs = (.str [], []))
         ∧ (∀ v s, jparse (fs.read (resolveFrom root "manifest.json")) = .ok v →
              propAccess v ("id".data) = .ok (.str s) → s ≠ [] →
              getManifestId root fs = (.str s, [])))) := by
  constructor
  · intro h
    simp [getManifestId, h]
  · intro h
    refine ⟨?_, ?_, ?_⟩
    · intro e he
      simp [getManifestId, h, he]
    · intro v hv hid
      simp [getManifestId, h, hv, hid, jsTruthy]
    · intro v s hv hid hs
      simp [getManifestId, h, hv, hid, jsTruthy, hs]

/-- Witness for C6: absent file, invalid JSON, `{}` without `id`, and
`{"id": "abc123"}`. -/
theorem c6_witness :
    getManifestId "/p" (FileSys.mk [] [] []) = (.str [], [])
    ∧ getManifestId "/p"
        (FileSys.mk [("/p/manifest.json", "not json".data)] [] []) =
      (.str [], [.warnManifest])
    ∧ getManifestId "/p"
        (FileSys.mk [("/p/manifest.json", "\x7b\x7d".data)] [] []) =
      (.str [], [])
    ∧ getManifestId "/p"
        (FileSys.mk [("/p/manifest.json",
          "\x7b\x22id\x22: \x22abc123\x22\x7d".data)] [] []) =
      (.str ("abc123".data), []) := by
  refine ⟨?_, ?_, ?_, ?_⟩
  · exact (c6_getManifestId "/p" (FileSys.mk [] [] [])).1 rfl
  · exact ((c6_getManifestId "/p"
      (FileSys.mk [("/p/manifest.json", "not json".data)] [] [])).2 rfl).1
      (.typeError "Unexpected token") rfl
  · exact (((c6_getManifestId "/p"
      (FileSys.mk [("/p/manifest.json", "\x7b\x7d".data)] [] [])).2 rfl).2.1)
      (.obj []) rfl rfl
  · exact (((c6_getManifestId "/p"
      (FileSys.mk [("/p/manifest.json",
        "\x7b\x22id\x22: \x22abc123\x22\x7d".data)] [] [])).2 rfl).2.2)
      (.obj [("id".data, .str ("abc123".data))]) ("abc123".data) rfl rfl
      (by decide)

/-- C7 counterexample: the middleware compares the full `req.url`, not the
HTTP path, against the endpoint, so a request whose path is exactly
`/__bks_vite_plugin__info` but which carries a query string is passed
through instead of answered. -/
theorem c7_counterexample :
    pathOf "/__bks_vite_plugin__info?x=1" = "/__bks_vite_plugin__info"
    ∧ infoMw "abc123" ⟨"/__bks_vite_plugin__info?x=1", none⟩ = .next := by
  refine ⟨by decide, by decide⟩

/-- C7 (amended): the identity endpoint matches requests whose full request
target (`req.url`, path and query string) equals
`/__bks_vite_plugin__info` exactly; those receive a terminating 200 JSON
response `{"manifestId": <identity>}` with `Access-Control-Allow-Origin: *`;
every other request — including one whose path matches but which has a
query string — is passed to the next interceptor. -/
theorem c7_info_endpoint_amended (manifestId : String) (req : Request) :
    (req.url = "/__bks_vite_plugin__info" →
      infoMw manifestId req = .done 200 infoHeaders (infoBody manifestId))
    ∧ (req.url ≠ "/__bks_vite_plugin__info" → infoMw manifestId req = .next) := by
  constructor
  · intro h
    simp [infoMw, h]
  · intro h
    simp [infoMw, h]

/-- Witness for C7: the exact endpoint is answered; another URL passes. -/
theorem c7_witness :
    infoMw "abc123" ⟨"/__bks_vite_plugin__info", some "plugin://zzz"⟩ =
      .done 200 infoHeaders (infoBody "abc123")
    ∧ infoMw "abc123" ⟨"/docs", none⟩ = .next :=
  ⟨(c7_info_endpoint_amended "abc123"
      ⟨"/__bks_vite_plugin__info", some "plugin://zzz"⟩).1 rfl,
   (c7_info_endpoint_amended "abc123" ⟨"/docs", none⟩).2 (by decide)⟩

/-- C8 counterexample: the whole provisioning routine sits in one
`try`/`catch`, so a copy failure in the first output directory logs one
warning and abandons the rest: the second directory is never created and
never receives `eventForwarder.js`, although its provisioning was still
pending and the auxiliary source exists.  The claim says the remaining
provisioning steps continue after a caught failure. -/
theorem c8_counterexample :
    (FileSys.mk [(eventForwarderSrc "/r", "EF".data)] []
        ["/r/a/eventForwarder.js"]).hasFile (eventForwarderSrc "/r") = true
    ∧ "/r/b" ∈ outputDirs "/r" [⟨"i", "a/x.html"⟩, ⟨"j", "b/y.html"⟩]
    ∧ copyDevFiles "/r" "/m" [⟨"i", "a/x.html"⟩, ⟨"j", "b/y.html"⟩]
        (FileSys.mk [(eventForwarderSrc "/r", "EF".data)] []
          ["/r/a/eventForwarder.js"]) =
      (FileSys.mk [(eventForwarderSrc "/r", "EF".data)] ["/r/a"]
        ["/r/a/eventForwarder.js"], [.warnCopyDevFiles])
    ∧ (FileSys.mk [(eventForwarderSrc "/r", "EF".data)] ["/r/a"]
        ["/r/a/eventForwarder.js"]).hasFile "/r/b/eventForwarder.js" = false
    ∧ "/r/b" ∉ (["/r/a"] : List String) := by
  refine ⟨by decide, by decide, by decide, by decide, by decide⟩

/-- C8 (amended): provisioning failures are caught by the single
surrounding `try`/`catch` — the routine always returns normally with either
the success log or one warning, so dev-server startup is never aborted —
but a failure skips every remaining provisioning step.  When no copy
failure occurs, every deduplicated output directory is present afterwards
and each auxiliary file is copied into every output directory when its
source exists, each file being skipped silently (still with the success
log) when its source is absent. -/
theorem c8_copyDevFiles_amended (root moduleDir : String)
    (entries : List Entrypoint) (fs : FileSys) :
    ((copyDevFiles root moduleDir entries fs).2 = [.copiedDevFiles] ∨
      (copyDevFiles root moduleDir entries fs).2 = [.warnCopyDevFiles])
    ∧ (fs.failCopyTo = [] →
        (copyDevFiles root moduleDir entries fs).2 = [.copiedDevFiles]
        ∧ (∀ d ∈ outputDirs root entries,
            d ∈ (copyDevFiles root moduleDir entries fs).1.dirs)
        ∧ (fs.hasFile (eventForwarderSrc root) = true →
            ∀ d ∈ outputDirs root entries,
              (copyDevFiles root moduleDir entries fs).1.hasFile
                (resolveFrom d "eventForwarder.js") = true)
        ∧ (fs.hasFile (errorPageSrc moduleDir) = true →
            ∀ d ∈ outputDirs root entries,
              (copyDevFiles root moduleDir entries fs).1.hasFile
                (resolveFrom d "error.html") = true)) := by
  constructor
  · unfold copyDevFiles
    cases hpa : provisionAll (eventForwarderSrc root) (errorPageSrc moduleDir)
        (outputDirs root entries) fs with
    | ok fs2 => simp
    | error fsp => simp
  · intro h
    obtain ⟨fs2, heq, hfail, hmono, hdmono, hdirs, hef, herr⟩ :=
      provisionAll_of_no_fail (eventForwarderSrc root) (errorPageSrc moduleDir)
        (outputDirs root entries) fs h
    unfold copyDevFiles
    rw [heq]
    exact ⟨rfl, hdirs, fun hs => hef hs, fun hs => herr hs⟩

/-- Witness for C8: both output directories are provisioned when nothing
fails (same two entrypoints and auxiliary source as the counterexample, but
with no injected copy failure). -/
theorem c8_witness :
    (copyDevFiles "/r" "/m" [⟨"i", "a/x.html"⟩, ⟨"j", "b/y.html"⟩]
        (FileSys.mk [(eventForwarderSrc "/r", "EF".data)] [] [])).2 =
      [.copiedDevFiles]
    ∧ (copyDevFiles "/r" "/m" [⟨"i", "a/x.html"⟩, ⟨"j", "b/y.html"⟩]
        (FileSys.mk [(eventForwarderSrc "/r", "EF".data)] [] [])).1.hasFile
        (resolveFrom "/r/b" "eventForwarder.js") = true := by
  have h := c8_copyDevFiles_amended "/r" "/m"
    [⟨"i", "a/x.html"⟩, ⟨"j", "b/y.html"⟩]
    (FileSys.mk [(eventForwarderSrc "/r", "EF".data)] [] [])
  exact ⟨(h.2 rfl).1, (h.2 rfl).2.2.1 (by decide) "/r/b" (by decide)⟩

/-- C9: the transform is not idempotent — applying it to its own output
injects a second client-loader script block, so the twice-transformed
document differs from the once-transformed one. -/
theorem c9_transform_not_idempotent :
    countSeq (clientScript [] 3000)
      (injectDevClient [] 3000 ("<head></head>".data)) = 1
    ∧ countSeq (clientScript [] 3000)
        (injectDevClient [] 3000
          (injectDevClient [] 3000 ("<head></head>".data))) = 2
    ∧ injectDevClient [] 3000 (injectDevClient [] 3000 ("<head></head>".data)) ≠
        injectDevClient [] 3000 ("<head></head>".data) := by
  refine ⟨by decide, by decide, by decide⟩

/-- C10: the identity endpoint is registered before the origin guard and
terminates matching requests itself, so `/__bks_vite_plugin__info` is
answered 200 with the identity for every `Origin` header — including a
`plugin://` origin that the guard rejects with 403 on any other URL. -/
theorem c10_info_bypasses_origin_guard :
    (∀ (manifestId : String) (origin : Option String),
      serveReq manifestId ⟨"/__bks_vite_plugin__info", origin⟩ =
        .done 200 infoHeaders (infoBody manifestId))
    ∧ (∀ (manifestId origin url : String), manifestId ≠ "" →
        jsStartsWith "plugin://" origin = true →
        origin ≠ "plugin://" ++ manifestId →
        url ≠ "/__bks_vite_plugin__info" →
        serveReq manifestId ⟨url, some origin⟩ = .done 403 [] "") := by
  constructor
  · intro id o
    have hi : infoMw id ⟨"/__bks_vite_plugin__info", o⟩ =
        .done 200 infoHeaders (infoBody id) := by
      simp [infoMw]
    simp [serveReq, bksMiddlewares, runChain, hi]
  · intro id o u h1 h2 h3 h4
    have ho : o ≠ "" := by
      intro he
      rw [he] at h2
      exact absurd h2 (by decide)
    have hi : infoMw id ⟨u, some o⟩ = .next := by
      simp [infoMw, h4]
    have hg : originGuard id ⟨u, some o⟩ = .done 403 [] "" := by
      simp [originGuard, h1, h2, h3, ho]
    simp [serveReq, bksMiddlewares, runChain, hi, hg]

/-- Witness for C10: with identity `abc123`, the hostile origin
`plugin://evil` still reads the info endpoint, while the same origin is
rejected with 403 on `/x`. -/
theorem c10_witness :
    serveReq "abc123" ⟨"/__bks_vite_plugin__info", some "plugin://evil"⟩ =
      .done 200 infoHeaders (infoBody "abc123")
    ∧ serveReq "abc123" ⟨"/x", some "plugin://evil"⟩ = .done 403 [] "" :=
  ⟨c10_info_bypasses_origin_guard.1 "abc123" (some "plugin://evil"),
   c10_info_bypasses_origin_guard.2 "abc123" "plugin://evil" "/x"
     (by decide) (by decide) (by decide) (by decide)⟩

end Bks
